import Mathlib

/-!
BvHSkeleton: the skeleton container of the BVH motion-capture loader.

Shallow embedding of `Source/HelloWorld3rdPerson/BvHSkeleton.h`.

Machine types.  `unsigned` is the 32 bit unsigned integer, `int` the 32 bit
two's-complement integer and `size_t` the 64 bit unsigned integer of the
targets Unreal Engine 4 builds for.  Fields of these types are natural numbers
or integers here and every operation that can leave the range reduces
explicitly.  A `double` is carried as its 64 bit pattern: the class only
copies doubles, it never computes with them.

Pointers.  A `std::shared_ptr<Joint>` that is dereferenced is a `Joint` value:
the address of the pointee together with what the skeleton reads through it.
The one pointer that may be null, `root_joint_`, is an `Option`.
-/

set_option linter.dupNamespace false

namespace bvh

deriving instance DecidableEq for Except

/-- Number of values of an `unsigned`, two to the 32. -/
def UINT_RANGE : Nat := 4294967296

/-- Number of values of a `size_t`, two to the 64. -/
def SIZE_RANGE : Nat := 18446744073709551616

/-- Conversion of a `size_t` value to `int`: the low 32 bits, read as a
two's-complement number (the result on the compilers the engine supports, and
the rule of the language since C++20). -/
def to_int (n : Nat) : Int :=
  if n % 4294967296 < 2147483648 then ((n % 4294967296 : Nat) : Int)
  else ((n % 4294967296 : Nat) : Int) - 4294967296

/-- Conversion of an `int` to `size_t` (the argument type of
`std::vector::operator[]`): the value modulo two to the 64. -/
def to_size_t (i : Int) : Nat := (i % 18446744073709551616).toNat

/-- A `double`, as its bit pattern; `0.0` has the pattern zero. -/
structure Double where
  bits : Nat
deriving DecidableEq, Repr

/-- Modelled from the spec: the class `Joint` of `Joint.h`, which is not among
the sources.  A value stands for a non-null `std::shared_ptr<Joint>`: `addr`
is the address of the pointee (the identity of the joint), `name` is what
`name()` returns and `num_channels` is what `num_channels()` returns, the
number of entries of the joint's channel order.  These two accessors are all
that `BvHSkeleton.h` uses of a joint. -/
structure Joint where
  addr : Nat
  name : String
  num_channels : Nat
deriving DecidableEq, Repr

/-- Ways in which a call fails to return a value.  `NotFound` is the
`std::out_of_range` exception of `std::map::at`; `IndexOutOfBounds` stands for
the undefined behaviour of `joints_[idx]` when `idx` is not a position of the
vector; `OutOfRange` and `StructuralInvariantViolation` are the two failures
the spec gives the recalculation: a frame that does not exist, and a start
joint that is not in the tree or whose parent has no transform yet. -/
inductive BvhError where
  | NotFound
  | IndexOutOfBounds
  | OutOfRange
  | StructuralInvariantViolation
deriving DecidableEq, Repr

/-- The data members of `class BvHSkeleton`, in declaration order.  The
`std::map <std::string, int>` is the partial function it represents. -/
structure BvHSkeleton where
  root_joint_ : Option Joint
  joints_ : List Joint
  joint_name_lookup_ : String → Option Int
  num_frames_ : Nat
  frame_time_ : Double
  num_channels_ : Nat

namespace BvHSkeleton

/-- The constructor `BvHSkeleton()`: the three numeric members are set to
zero, the pointer, the vector and the map are default-constructed. -/
def BvHSkeleton : bvh.BvHSkeleton :=
  { root_joint_ := none
    joints_ := []
    joint_name_lookup_ := fun _ => none
    num_frames_ := 0
    frame_time_ := ⟨0⟩
    num_channels_ := 0 }

/-- Body of `add_joint`:
`joints_.push_back(joint); num_channels_ += joint->num_channels();`
`joint_name_lookup_[joint->name()] = joints_.size() - 1;`.
The sum is an `unsigned`, the stored index an `int`. -/
def add_joint (s : bvh.BvHSkeleton) (joint : Joint) : bvh.BvHSkeleton :=
  let joints := s.joints_ ++ [joint]
  { s with
    joints_ := joints
    num_channels_ := (s.num_channels_ + joint.num_channels) % UINT_RANGE
    joint_name_lookup_ := fun n =>
      if n = joint.name then some (to_int ((joints.length - 1) % SIZE_RANGE))
      else s.joint_name_lookup_ n }

/-- Body of `get_joint`:
`int idx = joint_name_lookup_.at(joint_name); return joints_[idx];`. -/
def get_joint (s : bvh.BvHSkeleton) (joint_name : String) : Except BvhError Joint :=
  match s.joint_name_lookup_ joint_name with
  | none => .error .NotFound
  | some idx =>
    match s.joints_[to_size_t idx]? with
    | some j => .ok j
    | none => .error .IndexOutOfBounds

/-- Body of `have_joint`:
`joint_name_lookup_.find(joint_name) != joint_name_lookup_.end()`. -/
def have_joint (s : bvh.BvHSkeleton) (joint_name : String) : Bool :=
  (s.joint_name_lookup_ joint_name).isSome

/-- Getter `root_joint()`. -/
def root_joint (s : bvh.BvHSkeleton) : Option Joint := s.root_joint_

/-- Getter `joints()`. -/
def joints (s : bvh.BvHSkeleton) : List Joint := s.joints_

/-- Getter `num_frames()`. -/
def num_frames (s : bvh.BvHSkeleton) : Nat := s.num_frames_

/-- Getter `frame_time()`. -/
def frame_time (s : bvh.BvHSkeleton) : Double := s.frame_time_

/-- Getter `num_channels()`. -/
def num_channels (s : bvh.BvHSkeleton) : Nat := s.num_channels_

/-- Setter `set_root_joint`: `root_joint_ = arg`. -/
def set_root_joint (s : bvh.BvHSkeleton) (arg : Option Joint) : bvh.BvHSkeleton :=
  { s with root_joint_ := arg }

/-- Setter `set_joints`: `joints_ = arg`. -/
def set_joints (s : bvh.BvHSkeleton) (arg : List Joint) : bvh.BvHSkeleton :=
  { s with joints_ := arg }

/-- Setter `set_num_frames`: `num_frames_ = arg`, the argument being an
`unsigned`. -/
def set_num_frames (s : bvh.BvHSkeleton) (arg : Nat) : bvh.BvHSkeleton :=
  { s with num_frames_ := arg % UINT_RANGE }

/-- Setter `set_frame_time`: `frame_time_ = arg`. -/
def set_frame_time (s : bvh.BvHSkeleton) (arg : Double) : bvh.BvHSkeleton :=
  { s with frame_time_ := arg }

end BvHSkeleton

/-- The skeleton after the calls `add_joint(j)` for the joints `j` of `js`,
made in list order. -/
def add_joints (s : BvHSkeleton) (js : List Joint) : BvHSkeleton :=
  js.foldl BvHSkeleton.add_joint s

/-- One call of a public mutator of the skeleton, with its argument. -/
inductive Mutator where
  | add_joint (joint : Joint)
  | set_root_joint (arg : Option Joint)
  | set_joints (arg : List Joint)
  | set_num_frames (arg : Nat)
  | set_frame_time (arg : Double)
deriving DecidableEq, Repr

/-- The skeleton after one mutator call. -/
def Mutator.apply (s : BvHSkeleton) : Mutator → BvHSkeleton
  | .add_joint joint => s.add_joint joint
  | .set_root_joint arg => s.set_root_joint arg
  | .set_joints arg => s.set_joints arg
  | .set_num_frames arg => s.set_num_frames arg
  | .set_frame_time arg => s.set_frame_time arg

/-- The skeleton after a sequence of mutator calls, made in list order. -/
def run_mutators (s : BvHSkeleton) (ms : List Mutator) : BvHSkeleton :=
  ms.foldl Mutator.apply s

/-- Whether the call is a call of `set_joints`. -/
def Mutator.is_set_joints : Mutator → Bool
  | .set_joints _ => true
  | _ => false

/-- Consistency of the name lookup with the joints list: every name in the
lookup maps to an index that is non-negative and below the length of the list,
and the joint that `joints_[idx]` reads there carries that name. -/
def lookup_consistent (s : BvHSkeleton) : Prop :=
  ∀ (name : String) (idx : Int), s.joint_name_lookup_ name = some idx →
    0 ≤ idx ∧ idx < (s.joints_.length : Int) ∧
    ∃ j, s.joints_[to_size_t idx]? = some j ∧ j.name = name

/-- The joint number `k` of a family with pairwise distinct names: its name is
the letter `j` written `k` times. -/
def numbered_joint (k : Nat) : Joint :=
  ⟨k, String.mk (List.replicate k 'j'), 0⟩

/-- The first `n` joints of the family, in order. -/
def numbered_joints (n : Nat) : List Joint :=
  (List.range n).map numbered_joint

/-!
The recalculation.

`recalculate_joint_transforms` is declared in `BvHSkeleton.h` (line 31); its
body, and the class `Joint` it works on, are not among the sources.  The
definitions of this section follow sections 3, 4.1 and 4.2 of the spec.

A transform is a value of a type `M` with a product: `p * l` is the transform
`p` composed with `l`, `p` applied first.  The joint objects owned by the
skeleton form a tree, the "well-formed skeleton tree" of the spec: every joint
but the root has exactly one parent, the node whose child list holds it.
-/

/-- Modelled from the spec: the joint object of `Joint.h` with the joints it
owns.  `joint` is the handle the skeleton stores, `motion` holds for each
frame the local transform that `local_transform_for` builds from the frame's
channel values and the offset, `local_transform` and `global_transform` are
the per-frame slots written by the recalculation (`none`: not yet computed)
and `children` is the ordered child list. -/
inductive JointNode (M : Type) where
  | mk (joint : Joint) (motion : List M) (local_transform : Nat → Option M)
      (global_transform : Nat → Option M) (children : List (JointNode M))

namespace JointNode

variable {M : Type}

/-- Handle of the joint. -/
def joint : JointNode M → Joint
  | mk j _ _ _ _ => j

/-- Per-frame decoded motion of the joint. -/
def motion : JointNode M → List M
  | mk _ m _ _ _ => m

/-- Slot `local_transform[frame]`. -/
def local_transform : JointNode M → Nat → Option M
  | mk _ _ l _ _ => l

/-- Slot `global_transform[frame]`. -/
def global_transform : JointNode M → Nat → Option M
  | mk _ _ _ g _ => g

/-- Child list of the joint. -/
def children : JointNode M → List (JointNode M)
  | mk _ _ _ _ c => c

/-- Modelled from the spec: `local_transform_for(frame)` of section 4.1, which
fails with `OutOfRange` when the frame has no stored motion data. -/
def local_transform_for (node : JointNode M) (frame : Nat) : Except BvhError M :=
  match node.motion[frame]? with
  | some l => .ok l
  | none => .error .OutOfRange

mutual
/-- The joint itself followed by all joints below it, parents before their
children. -/
def nodes : JointNode M → List (JointNode M)
  | mk j m l g c => mk j m l g c :: nodes_list c
/-- All joints of a list of subtrees. -/
def nodes_list : List (JointNode M) → List (JointNode M)
  | [] => []
  | c :: cs => nodes c ++ nodes_list cs
end

mutual
/-- Every joint of the tree has motion data for exactly `n` frames
("all joints' motion data must agree with this count"). -/
def motion_complete (n : Nat) : JointNode M → Bool
  | mk _ m _ _ c => decide (m.length = n) && motion_complete_list n c
/-- The same for a list of subtrees. -/
def motion_complete_list (n : Nat) : List (JointNode M) → Bool
  | [] => true
  | c :: cs => motion_complete n c && motion_complete_list n cs
end

mutual
/-- Every joint of the tree has motion data for the frame `frame`. -/
def motion_covers (frame : Nat) : JointNode M → Bool
  | mk _ m _ _ c => decide (frame < m.length) && motion_covers_list frame c
/-- The same for a list of subtrees. -/
def motion_covers_list (frame : Nat) : List (JointNode M) → Bool
  | [] => true
  | c :: cs => motion_covers frame c && motion_covers_list frame cs
end

end JointNode

section recalculation

variable {M : Type} [Mul M]

/-- Modelled from the spec: the global transform of a joint from its local
one. "If `start_joint` is the root, `global_transform = local_transform`.
Otherwise `global_transform = parent.global_transform[frame] ∘ local_transform`". -/
def global_from (parent_global : Option M) (loc : M) : M :=
  match parent_global with
  | none => loc
  | some p => p * loc

mutual
/-- Modelled from the spec: the algorithm of section 4.2 at one joint.
`parent_global` is `parent.global_transform[frame]`, absent when the joint is
the root.  The local transform is computed; the global transform is the local
one at the root and the parent's global transform composed with the local one
elsewhere; both are stored in the joint's slots for `frame`; then every child
is visited in child-list order with the same frame. -/
def recalculate_from (frame : Nat) (parent_global : Option M) :
    JointNode M → Except BvhError (JointNode M)
  | .mk j m l g c =>
    match m[frame]? with
    | none => .error .OutOfRange
    | some loc =>
      let glob := global_from parent_global loc
      match recalculate_children frame glob c with
      | .error e => .error e
      | .ok c1 =>
        .ok (.mk j m (fun f => if f = frame then some loc else l f)
          (fun f => if f = frame then some glob else g f) c1)
/-- The recursion into the children of a joint whose global transform for
`frame` is `glob`. -/
def recalculate_children (frame : Nat) (glob : M) :
    List (JointNode M) → Except BvhError (List (JointNode M))
  | [] => .ok []
  | c :: cs =>
    match recalculate_from frame (some glob) c with
    | .error e => .error e
    | .ok c1 =>
      match recalculate_children frame glob cs with
      | .error e => .error e
      | .ok cs1 => .ok (c1 :: cs1)
end

/-- Modelled from the spec: recalculation started at the joint reached from
`node` by `path` (child positions, the empty path being `node` itself).  A
start joint below the root takes its parent's stored global transform. -/
def recalculate_at (frame : Nat) :
    List Nat → Option M → JointNode M → Except BvhError (JointNode M)
  | [], parent_global, node => recalculate_from frame parent_global node
  | i :: rest, _, .mk j m l g cs =>
    match cs[i]?, g frame with
    | some child, some glob =>
      match recalculate_at frame rest (some glob) child with
      | .error e => .error e
      | .ok child1 => .ok (.mk j m l g (cs.set i child1))
    | _, _ => .error .StructuralInvariantViolation

/-- Modelled from the spec: `recalculate_joint_transforms(frame, current_joint)`
of section 4.2 on the skeleton `s` whose root joint object is `root`.  The
start joint is given by its path from the root; the default `NULL` is `none`
and resolves to the root.  A frame that is not below `num_frames()` fails with
`OutOfRange`.  The result is the tree with its slots for `frame` rewritten. -/
def BvHSkeleton.recalculate_joint_transforms (s : bvh.BvHSkeleton) (root : JointNode M)
    (frame : Nat) (current_joint : Option (List Nat)) : Except BvhError (JointNode M) :=
  if s.num_frames_ ≤ frame then .error .OutOfRange
  else recalculate_at frame (current_joint.getD []) none root

end recalculation

/-- The composition law at frame `frame` between a joint `parent` and one of
its children `child`: both of the child's slots and the parent's global slot
are filled, and the child's global transform is the parent's global transform
composed with the child's local transform, parent first. -/
def composition_law {M : Type} [Mul M] (frame : Nat) (parent child : JointNode M) : Prop :=
  ∃ pg cl, parent.global_transform frame = some pg ∧ child.local_transform frame = some cl ∧
    child.global_transform frame = some (pg * cl)

/-- A two-joint tree with one frame of motion, over integer transforms with the
integer product as composition: the root "Hips" with local transform 2 and its
only child "Spine" with local transform 3; no slot is filled yet. -/
def hips_spine : JointNode Int :=
  .mk ⟨1, "Hips", 6⟩ [2] (fun _ => none) (fun _ => none)
    [.mk ⟨2, "Spine", 3⟩ [3] (fun _ => none) (fun _ => none) []]

/-!
Properties of the skeleton container.
-/

theorem to_int_of_lt {n : Nat} (h : n < 2147483648) : to_int n = (n : Int) := by
  have h1 : n % 4294967296 = n := Nat.mod_eq_of_lt (by omega)
  simp [to_int, h1, h]

theorem to_int_mod_size (n : Nat) : to_int (n % SIZE_RANGE) = to_int n := by
  have h : n % SIZE_RANGE % 4294967296 = n % 4294967296 :=
    Nat.mod_mod_of_dvd n (by decide : (4294967296 : Nat) ∣ SIZE_RANGE)
  simp [to_int, h]

theorem to_size_t_of_nat {n : Nat} (h : n < 2147483648) : to_size_t (n : Int) = n := by
  unfold to_size_t
  omega

theorem add_joint_joints (s : BvHSkeleton) (j : Joint) :
    (s.add_joint j).joints_ = s.joints_ ++ [j] := rfl

theorem add_joint_num_channels (s : BvHSkeleton) (j : Joint) :
    (s.add_joint j).num_channels_ = (s.num_channels_ + j.num_channels) % 4294967296 := rfl

theorem add_joint_lookup_self (s : BvHSkeleton) (j : Joint) :
    (s.add_joint j).joint_name_lookup_ j.name = some (to_int s.joints_.length) := by
  simp [BvHSkeleton.add_joint, to_int_mod_size]

theorem add_joint_lookup_other (s : BvHSkeleton) (j : Joint) {n : String} (h : n ≠ j.name) :
    (s.add_joint j).joint_name_lookup_ n = s.joint_name_lookup_ n := by
  simp [BvHSkeleton.add_joint, h]

/-- C1 (as stated, refuted): the skeleton holding one joint named "Hips" with
6 channels has that name registered, and `add_joint` of a second joint named
"Hips" with 3 channels returns normally with `joints()` of length 2 instead of
1 and `num_channels()` 9 instead of 6. -/
theorem add_joint_duplicate_counterexample :
    (BvHSkeleton.BvHSkeleton.add_joint ⟨1, "Hips", 6⟩).have_joint "Hips" = true ∧
    ((BvHSkeleton.BvHSkeleton.add_joint ⟨1, "Hips", 6⟩).add_joint ⟨2, "Hips", 3⟩).joints.length = 2 ∧
    (BvHSkeleton.BvHSkeleton.add_joint ⟨1, "Hips", 6⟩).joints.length = 1 ∧
    ((BvHSkeleton.BvHSkeleton.add_joint ⟨1, "Hips", 6⟩).add_joint ⟨2, "Hips", 3⟩).num_channels = 9 ∧
    (BvHSkeleton.BvHSkeleton.add_joint ⟨1, "Hips", 6⟩).num_channels = 6 := by
  decide

/-- C1 (amended): for every skeleton and every joint `j` whose name is already
registered, `add_joint(j)` returns normally: `joints()` is the old list with
`j` appended, so one longer, `num_channels()` is the old value plus
`j.num_channels()` modulo two to the 32, and the name stays registered. -/
theorem add_joint_duplicate_appends (s : BvHSkeleton) (j : Joint)
    (_h : s.have_joint j.name = true) :
    (s.add_joint j).joints = s.joints ++ [j] ∧
    (s.add_joint j).joints.length = s.joints.length + 1 ∧
    (s.add_joint j).num_channels = (s.num_channels + j.num_channels) % 4294967296 ∧
    (s.add_joint j).have_joint j.name = true := by
  refine ⟨rfl, ?_, rfl, ?_⟩
  · simp [BvHSkeleton.joints, add_joint_joints]
  · simp [BvHSkeleton.have_joint, add_joint_lookup_self]

/-- C1 (witness): a second joint named "Hips" is appended to the skeleton that
already holds one. -/
theorem add_joint_duplicate_appends_witness :
    (BvHSkeleton.BvHSkeleton.add_joint ⟨1, "Hips", 6⟩).have_joint "Hips" = true ∧
    ((BvHSkeleton.BvHSkeleton.add_joint ⟨1, "Hips", 6⟩).add_joint ⟨2, "Hips", 3⟩).joints.length =
      (BvHSkeleton.BvHSkeleton.add_joint ⟨1, "Hips", 6⟩).joints.length + 1 :=
  ⟨by decide,
   (add_joint_duplicate_appends (BvHSkeleton.BvHSkeleton.add_joint ⟨1, "Hips", 6⟩)
      ⟨2, "Hips", 3⟩ (by decide)).2.1⟩

/-- C2: `get_joint(name)` fails with `NotFound` if and only if `name` is
absent from the name lookup, and it fails so for every name on a freshly
constructed skeleton. -/
theorem get_joint_not_found_iff (s : BvHSkeleton) (name : String) :
    (s.get_joint name = .error .NotFound ↔ s.joint_name_lookup_ name = none) ∧
    BvHSkeleton.BvHSkeleton.get_joint name = .error .NotFound := by
  refine ⟨?_, rfl⟩
  unfold BvHSkeleton.get_joint
  cases hl : s.joint_name_lookup_ name with
  | none => simp
  | some idx =>
    cases hj : s.joints_[to_size_t idx]? <;> simp [hj]

theorem add_joints_nil (s : BvHSkeleton) : add_joints s [] = s := rfl

theorem add_joints_cons (s : BvHSkeleton) (j : Joint) (js : List Joint) :
    add_joints s (j :: js) = add_joints (s.add_joint j) js := rfl

theorem add_joints_append (s : BvHSkeleton) (js ks : List Joint) :
    add_joints s (js ++ ks) = add_joints (add_joints s js) ks := by
  simp [add_joints, List.foldl_append]

theorem add_joints_joints (s : BvHSkeleton) (js : List Joint) :
    (add_joints s js).joints_ = s.joints_ ++ js := by
  induction js generalizing s with
  | nil => simp [add_joints_nil]
  | cons j js ih => simp [add_joints_cons, ih, add_joint_joints]

theorem add_joints_lookup_of_not_mem (s : BvHSkeleton) (js : List Joint) (n : String)
    (h : ∀ j ∈ js, n ≠ j.name) :
    (add_joints s js).joint_name_lookup_ n = s.joint_name_lookup_ n := by
  induction js generalizing s with
  | nil => rfl
  | cons j js ih =>
    rw [add_joints_cons, ih _ (fun k hk => h k (List.mem_cons_of_mem _ hk)),
      add_joint_lookup_other s j (h j (List.mem_cons_self _ _))]

/-- The skeleton after `k` calls `add_joint(x)` on a fresh skeleton: a name
other than that of `x` is not registered, and `joints()` has `k` entries. -/
theorem add_joints_replicate (k : Nat) (x : Joint) (n : String) (h : n ≠ x.name) :
    (add_joints BvHSkeleton.BvHSkeleton (List.replicate k x)).have_joint n = false ∧
    (add_joints BvHSkeleton.BvHSkeleton (List.replicate k x)).joints.length = k := by
  refine ⟨?_, ?_⟩
  · unfold BvHSkeleton.have_joint
    rw [add_joints_lookup_of_not_mem _ _ _ (fun j hj => by
      rw [List.eq_of_mem_replicate hj]; exact h)]
    rfl
  · unfold BvHSkeleton.joints
    rw [add_joints_joints]
    simp [BvHSkeleton.BvHSkeleton]

theorem add_joints_replicate_length (k : Nat) (x : Joint) :
    (add_joints BvHSkeleton.BvHSkeleton (List.replicate k x)).joints_.length = k := by
  rw [add_joints_joints]
  simp [BvHSkeleton.BvHSkeleton]

/-- After `k` calls `add_joint(x)` on a fresh skeleton, `add_joint(j)` stores
for the name of `j` the count `k` converted to `int`. -/
theorem add_joints_replicate_lookup (k : Nat) (x j : Joint) (n : String) (h : n = j.name) :
    ((add_joints BvHSkeleton.BvHSkeleton (List.replicate k x)).add_joint j).joint_name_lookup_
      n = some (to_int k) := by
  subst h
  rw [add_joint_lookup_self, add_joints_joints]
  simp [BvHSkeleton.BvHSkeleton]

/-- With between two to the 31 and two to the 32 joints already stored, the
index kept for a new joint is negative and `get_joint` indexes outside the
vector. -/
theorem get_joint_add_joint_wrapped (s : BvHSkeleton) (j : Joint)
    (h1 : 2147483648 ≤ s.joints_.length) (h2 : s.joints_.length < 4294967296) :
    (s.add_joint j).joint_name_lookup_ j.name = some ((s.joints_.length : Int) - 4294967296) ∧
    (s.add_joint j).get_joint j.name = .error .IndexOutOfBounds := by
  have hm : s.joints_.length % 4294967296 = s.joints_.length := Nat.mod_eq_of_lt h2
  have hi : to_int s.joints_.length = (s.joints_.length : Int) - 4294967296 := by
    have : ¬ s.joints_.length < 2147483648 := by omega
    simp [to_int, hm, this]
  have hl := add_joint_lookup_self s j
  rw [hi] at hl
  refine ⟨hl, ?_⟩
  have hs : to_size_t ((s.joints_.length : Int) - 4294967296)
      = s.joints_.length + 18446744069414584320 := by
    unfold to_size_t
    omega
  have hn : (s.add_joint j).joints_[s.joints_.length + 18446744069414584320]? = none := by
    apply List.getElem?_eq_none
    simp [add_joint_joints]
  unfold BvHSkeleton.get_joint
  rw [hl]
  simp only [hs, hn]

/-- With fewer than two to the 31 joints already stored, `get_joint` finds the
joint just added under its name. -/
theorem get_joint_add_joint_of_lt (s : BvHSkeleton) (j : Joint)
    (h : s.joints_.length < 2147483648) :
    (s.add_joint j).joint_name_lookup_ j.name = some (s.joints_.length : Int) ∧
    (s.add_joint j).get_joint j.name = .ok j := by
  have hl := add_joint_lookup_self s j
  rw [to_int_of_lt h] at hl
  refine ⟨hl, ?_⟩
  unfold BvHSkeleton.get_joint
  rw [hl]
  simp only [to_size_t_of_nat h]
  simp [add_joint_joints]

theorem add_joints_replicate_get_joint_wrapped (k : Nat) (x j : Joint) (n : String)
    (h : n = j.name) (h1 : 2147483648 ≤ k) (h2 : k < 4294967296) :
    ((add_joints BvHSkeleton.BvHSkeleton (List.replicate k x)).add_joint j).get_joint n
      = .error .IndexOutOfBounds := by
  subst h
  have hk := add_joints_replicate_length k x
  exact (get_joint_add_joint_wrapped _ j (by rw [hk]; exact h1) (by rw [hk]; exact h2)).2

theorem add_joints_replicate_get_joint_first (k : Nat) (x j : Joint) (n : String)
    (h : n = j.name) (h1 : 0 < k) (h2 : to_int k = 0) :
    ((add_joints BvHSkeleton.BvHSkeleton (List.replicate k x)).add_joint j).get_joint n
      = .ok x := by
  have hl := add_joints_replicate_lookup k x j n h
  unfold BvHSkeleton.get_joint
  rw [hl, h2]
  have h0 : to_size_t 0 = 0 := by decide
  obtain ⟨m, rfl⟩ : ∃ m, k = m + 1 := ⟨k - 1, by omega⟩
  simp [h0, add_joint_joints, add_joints_joints, BvHSkeleton.BvHSkeleton, List.replicate_succ]

/-- C3 (as stated, refuted): two inputs with an unregistered name.  After a
joint with 4294967295 channels, adding "b" with 1 channel leaves
`num_channels()` at 0, not at 4294967296.  After 2147483648 joints named "x",
adding "b" stores the index -2147483648 for "b", not the old length
2147483648. -/
theorem add_joint_new_name_counterexample :
    ((BvHSkeleton.BvHSkeleton.add_joint ⟨1, "a", 4294967295⟩).have_joint "b" = false ∧
      ((BvHSkeleton.BvHSkeleton.add_joint ⟨1, "a", 4294967295⟩).add_joint ⟨2, "b", 1⟩).num_channels = 0 ∧
      (BvHSkeleton.BvHSkeleton.add_joint ⟨1, "a", 4294967295⟩).num_channels + 1 = 4294967296) ∧
    ((add_joints BvHSkeleton.BvHSkeleton (List.replicate 2147483648 ⟨1, "x", 0⟩)).have_joint "b" = false ∧
      (add_joints BvHSkeleton.BvHSkeleton (List.replicate 2147483648 ⟨1, "x", 0⟩)).joints.length = 2147483648 ∧
      ((add_joints BvHSkeleton.BvHSkeleton (List.replicate 2147483648 ⟨1, "x", 0⟩)).add_joint
        ⟨2, "b", 0⟩).joint_name_lookup_ "b" = some (-2147483648)) := by
  exact ⟨by decide,
    (add_joints_replicate 2147483648 ⟨1, "x", 0⟩ "b" (by decide)).1,
    (add_joints_replicate 2147483648 ⟨1, "x", 0⟩ "b" (by decide)).2,
    (add_joints_replicate_lookup 2147483648 ⟨1, "x", 0⟩ ⟨2, "b", 0⟩ "b" rfl).trans (by decide)⟩

/-- C3 (amended): for every skeleton and every joint `j` whose name is not yet
registered, `add_joint(j)` yields a skeleton whose joints list is the old list
with `j` appended; the name lookup maps `j.name` to the old length converted
to a 32 bit `int`, which is the old length itself (the new last index)
whenever that is below two to the 31; `num_channels()` is the old value plus
`j.num_channels()` modulo two to the 32, which is the plain sum whenever that
is below two to the 32. -/
theorem add_joint_new_name (s : BvHSkeleton) (j : Joint)
    (_h : s.have_joint j.name = false) :
    (s.add_joint j).joints = s.joints ++ [j] ∧
    (s.add_joint j).joint_name_lookup_ j.name = some (to_int s.joints.length) ∧
    (s.joints.length < 2147483648 →
      (s.add_joint j).joint_name_lookup_ j.name = some (s.joints.length : Int)) ∧
    (s.add_joint j).num_channels = (s.num_channels + j.num_channels) % 4294967296 ∧
    (s.num_channels + j.num_channels < 4294967296 →
      (s.add_joint j).num_channels = s.num_channels + j.num_channels) := by
  refine ⟨rfl, add_joint_lookup_self s j, fun h => (get_joint_add_joint_of_lt s j h).1, rfl, ?_⟩
  intro h
  show (s.num_channels_ + j.num_channels) % 4294967296 = s.num_channels_ + j.num_channels
  exact Nat.mod_eq_of_lt h

/-- C3 (witness): "Spine" with 3 channels added after "Hips" with 6 channels. -/
theorem add_joint_new_name_witness :
    (BvHSkeleton.BvHSkeleton.add_joint ⟨1, "Hips", 6⟩).have_joint "Spine" = false ∧
    ((BvHSkeleton.BvHSkeleton.add_joint ⟨1, "Hips", 6⟩).add_joint ⟨2, "Spine", 3⟩).joints =
      [⟨1, "Hips", 6⟩, ⟨2, "Spine", 3⟩] ∧
    ((BvHSkeleton.BvHSkeleton.add_joint ⟨1, "Hips", 6⟩).add_joint ⟨2, "Spine", 3⟩).num_channels = 9 :=
  ⟨by decide,
   (add_joint_new_name (BvHSkeleton.BvHSkeleton.add_joint ⟨1, "Hips", 6⟩) ⟨2, "Spine", 3⟩
      (by decide)).1,
   (add_joint_new_name (BvHSkeleton.BvHSkeleton.add_joint ⟨1, "Hips", 6⟩) ⟨2, "Spine", 3⟩
      (by decide)).2.2.2.1⟩

/-- C4 (as stated, refuted): on the skeleton holding 2147483648 joints named
"x", `get_joint("b")` after `add_joint` of a joint named "b" indexes outside
the vector; on the skeleton holding 4294967296 such joints it returns the
first joint "x" instead of the joint added. -/
theorem add_joint_get_joint_counterexample :
    ((add_joints BvHSkeleton.BvHSkeleton (List.replicate 2147483648 ⟨1, "x", 0⟩)).add_joint
        ⟨2, "b", 0⟩).get_joint "b" = .error .IndexOutOfBounds ∧
    ((add_joints BvHSkeleton.BvHSkeleton (List.replicate 4294967296 ⟨1, "x", 0⟩)).add_joint
        ⟨2, "b", 0⟩).get_joint "b" = .ok ⟨1, "x", 0⟩ ∧
    (⟨1, "x", 0⟩ : Joint) ≠ ⟨2, "b", 0⟩ :=
  ⟨add_joints_replicate_get_joint_wrapped 2147483648 ⟨1, "x", 0⟩ ⟨2, "b", 0⟩ "b" rfl
      (by decide) (by decide),
   add_joints_replicate_get_joint_first 4294967296 ⟨1, "x", 0⟩ ⟨2, "b", 0⟩ "b" rfl
      (by decide) (by decide),
   by decide⟩

/-- C4 (amended): round trip, for every skeleton holding fewer than two to the
31 joints and every joint `j`: after `add_joint(j)` the call
`have_joint(j.name)` returns true and `get_joint(j.name)` succeeds and returns
exactly `j`. -/
theorem add_joint_get_joint_round_trip (s : BvHSkeleton) (j : Joint)
    (h : s.joints.length < 2147483648) :
    (s.add_joint j).have_joint j.name = true ∧ (s.add_joint j).get_joint j.name = .ok j := by
  refine ⟨?_, (get_joint_add_joint_of_lt s j h).2⟩
  simp [BvHSkeleton.have_joint, add_joint_lookup_self]

/-- C4 (witness): the round trip for a second joint named "Hips". -/
theorem add_joint_get_joint_round_trip_witness :
    (BvHSkeleton.BvHSkeleton.add_joint ⟨1, "Hips", 6⟩).joints.length < 2147483648 ∧
    ((BvHSkeleton.BvHSkeleton.add_joint ⟨1, "Hips", 6⟩).add_joint ⟨2, "Hips", 3⟩).get_joint "Hips"
      = .ok ⟨2, "Hips", 3⟩ :=
  ⟨by decide,
   (add_joint_get_joint_round_trip (BvHSkeleton.BvHSkeleton.add_joint ⟨1, "Hips", 6⟩)
      ⟨2, "Hips", 3⟩ (by decide)).2⟩

/-- C5: `have_joint(name)` is a total function of the skeleton that returns
only a boolean, so it cannot fail and cannot change a field; it returns true
exactly when `name` is a key of the name lookup, which is exactly when
`get_joint(name)` does not fail with `NotFound`. -/
theorem have_joint_iff (s : BvHSkeleton) (name : String) :
    (s.have_joint name = true ↔ ∃ idx, s.joint_name_lookup_ name = some idx) ∧
    (s.have_joint name = true ↔ s.get_joint name ≠ .error .NotFound) ∧
    (s.have_joint name = false ↔ s.get_joint name = .error .NotFound) := by
  unfold BvHSkeleton.have_joint BvHSkeleton.get_joint
  cases hl : s.joint_name_lookup_ name with
  | none => simp
  | some idx => cases hj : s.joints_[to_size_t idx]? <;> simp [hj]

theorem add_joints_num_channels (s : BvHSkeleton) (js : List Joint)
    (h : s.num_channels_ < 4294967296) :
    (add_joints s js).num_channels_
      = (s.num_channels_ + (js.map Joint.num_channels).sum) % 4294967296 := by
  induction js generalizing s with
  | nil => simp [add_joints_nil, Nat.mod_eq_of_lt h]
  | cons j js ih =>
    rw [add_joints_cons, ih _ (by rw [add_joint_num_channels]; omega), add_joint_num_channels]
    simp only [List.map_cons, List.sum_cons]
    omega

/-- C9 (as stated, refuted): after `add_joint` of "Hips" with 4294967290
channels and of "Spine" with 6 channels on a fresh skeleton, `num_channels()`
is 0 while the channel counts of the joints in `joints()` sum to
4294967296. -/
theorem num_channels_sum_counterexample :
    (add_joints BvHSkeleton.BvHSkeleton
      [⟨1, "Hips", 4294967290⟩, ⟨2, "Spine", 6⟩]).num_channels = 0 ∧
    ((add_joints BvHSkeleton.BvHSkeleton
      [⟨1, "Hips", 4294967290⟩, ⟨2, "Spine", 6⟩]).joints.map Joint.num_channels).sum
      = 4294967296 := by
  decide

/-- C9 (amended): in every skeleton obtained from a freshly constructed one by
a sequence of `add_joint` calls, `joints()` holds the joints added, in call
order, and `num_channels()` equals the sum of `num_channels()` over all joints
in `joints()` modulo two to the 32; it is the sum itself whenever the sum is
below two to the 32. -/
theorem num_channels_sum (js : List Joint) :
    (add_joints BvHSkeleton.BvHSkeleton js).joints = js ∧
    (add_joints BvHSkeleton.BvHSkeleton js).num_channels
      = (((add_joints BvHSkeleton.BvHSkeleton js).joints.map Joint.num_channels).sum)
          % 4294967296 ∧
    ((((add_joints BvHSkeleton.BvHSkeleton js).joints.map Joint.num_channels).sum)
        < 4294967296 →
      (add_joints BvHSkeleton.BvHSkeleton js).num_channels
        = ((add_joints BvHSkeleton.BvHSkeleton js).joints.map Joint.num_channels).sum) := by
  have hj : (add_joints BvHSkeleton.BvHSkeleton js).joints = js := by
    show (add_joints BvHSkeleton.BvHSkeleton js).joints_ = js
    rw [add_joints_joints]
    rfl
  have hn : (add_joints BvHSkeleton.BvHSkeleton js).num_channels
      = ((js.map Joint.num_channels).sum) % 4294967296 := by
    show (add_joints BvHSkeleton.BvHSkeleton js).num_channels_ = _
    rw [add_joints_num_channels _ _ (by decide)]
    simp [BvHSkeleton.BvHSkeleton]
  rw [hj, hn]
  exact ⟨rfl, rfl, fun h => Nat.mod_eq_of_lt h⟩

/-- C9 (witness): 6 and 3 channels sum to 9, below the range of `unsigned`. -/
theorem num_channels_sum_witness :
    (add_joints BvHSkeleton.BvHSkeleton [⟨1, "Hips", 6⟩, ⟨2, "Spine", 3⟩]).num_channels = 9 :=
  ((num_channels_sum [⟨1, "Hips", 6⟩, ⟨2, "Spine", 3⟩]).2.2 (by decide)).trans (by decide)

theorem run_mutators_cons (s : BvHSkeleton) (m : Mutator) (ms : List Mutator) :
    run_mutators s (m :: ms) = run_mutators (m.apply s) ms := rfl

theorem run_mutators_add_joints (s : BvHSkeleton) (js : List Joint) :
    run_mutators s (js.map Mutator.add_joint) = add_joints s js := by
  induction js generalizing s with
  | nil => rfl
  | cons j js ih => simp only [List.map_cons, run_mutators_cons, add_joints_cons, ih, Mutator.apply]

/-- A mutator other than `set_joints` keeps both the joints list and the
lookup, unless it is `add_joint`. -/
theorem apply_keeps_joints (s : BvHSkeleton) (m : Mutator) (h : m.is_set_joints = false) :
    (∃ j, m = .add_joint j) ∨
    ((m.apply s).joints_ = s.joints_ ∧ (m.apply s).joint_name_lookup_ = s.joint_name_lookup_) := by
  cases m with
  | add_joint j => exact Or.inl ⟨j, rfl⟩
  | set_joints l => simp [Mutator.is_set_joints] at h
  | set_root_joint a => exact Or.inr ⟨rfl, rfl⟩
  | set_num_frames a => exact Or.inr ⟨rfl, rfl⟩
  | set_frame_time a => exact Or.inr ⟨rfl, rfl⟩

theorem run_mutators_length_mono (s : BvHSkeleton) (ms : List Mutator)
    (h : ∀ m ∈ ms, m.is_set_joints = false) :
    s.joints_.length ≤ (run_mutators s ms).joints_.length := by
  induction ms generalizing s with
  | nil => exact Nat.le_refl _
  | cons m ms ih =>
    rw [run_mutators_cons]
    have h1 := ih (m.apply s) (fun k hk => h k (List.mem_cons_of_mem _ hk))
    rcases apply_keeps_joints s m (h m (List.mem_cons_self _ _)) with ⟨j, rfl⟩ | ⟨hj, _⟩
    · have : (Mutator.apply s (.add_joint j)).joints_.length = s.joints_.length + 1 := by
        simp [Mutator.apply, add_joint_joints]
      omega
    · rw [hj] at h1
      exact h1

theorem lookup_consistent_fresh : lookup_consistent BvHSkeleton.BvHSkeleton := by
  intro name idx h
  simp [BvHSkeleton.BvHSkeleton] at h

/-- `add_joint` keeps the lookup consistent as long as the new index fits an
`int`. -/
theorem lookup_consistent_add_joint (s : BvHSkeleton) (j : Joint)
    (hs : lookup_consistent s) (hlen : s.joints_.length < 2147483648) :
    lookup_consistent (s.add_joint j) := by
  intro name idx h
  by_cases hn : name = j.name
  · subst hn
    have hl := (get_joint_add_joint_of_lt s j hlen).1
    rw [hl] at h
    have hi := (Option.some.inj h).symm
    subst hi
    refine ⟨by omega, by simp [add_joint_joints], j, ?_, rfl⟩
    rw [to_size_t_of_nat hlen]
    simp [add_joint_joints]
  · rw [add_joint_lookup_other s j hn] at h
    obtain ⟨h0, h1, k, hk, hname⟩ := hs name idx h
    refine ⟨h0, by simp [add_joint_joints]; omega, k, ?_, hname⟩
    have hlt : to_size_t idx < s.joints_.length := by
      by_contra hc
      rw [List.getElem?_eq_none (Nat.le_of_not_lt hc)] at hk
      exact absurd hk (by simp)
    rw [add_joint_joints, List.getElem?_append_left hlt]
    exact hk

theorem lookup_consistent_run (s : BvHSkeleton) (ms : List Mutator)
    (hs : lookup_consistent s)
    (h1 : ∀ m ∈ ms, m.is_set_joints = false)
    (h2 : (run_mutators s ms).joints_.length ≤ 2147483648) :
    lookup_consistent (run_mutators s ms) := by
  induction ms generalizing s with
  | nil => exact hs
  | cons m ms ih =>
    rw [run_mutators_cons] at h2 ⊢
    have hrest : ∀ k ∈ ms, k.is_set_joints = false := fun k hk => h1 k (List.mem_cons_of_mem _ hk)
    have hmono := run_mutators_length_mono (m.apply s) ms hrest
    refine ih (m.apply s) ?_ hrest h2
    rcases apply_keeps_joints s m (h1 m (List.mem_cons_self _ _)) with ⟨j, rfl⟩ | ⟨hj, hl⟩
    · have : (Mutator.apply s (.add_joint j)).joints_.length = s.joints_.length + 1 := by
        simp [Mutator.apply, add_joint_joints]
      exact lookup_consistent_add_joint s j hs (by omega)
    · intro name idx h
      rw [hl] at h
      rw [hj]
      exact hs name idx h

/-- After `k` calls `add_joint(x)` on a fresh skeleton, `k` positive, the index
kept for the name of `x` is `k - 1` converted to `int`. -/
theorem run_replicate_add_joint_lookup (k : Nat) (x : Joint) (n : String) (hn : n = x.name)
    (hk : 0 < k) :
    (run_mutators BvHSkeleton.BvHSkeleton
      (List.replicate k (Mutator.add_joint x))).joint_name_lookup_ n = some (to_int (k - 1)) := by
  obtain ⟨m, rfl⟩ : ∃ m, k = m + 1 := ⟨k - 1, by omega⟩
  have h : List.replicate (m + 1) (Mutator.add_joint x)
      = (List.replicate m x ++ [x]).map Mutator.add_joint := by
    rw [List.replicate_succ']
    simp
  rw [h, run_mutators_add_joints, add_joints_append, hn]
  show ((add_joints BvHSkeleton.BvHSkeleton (List.replicate m x)).add_joint x).joint_name_lookup_
    x.name = _
  rw [add_joint_lookup_self, add_joints_replicate_length]
  simp

theorem not_lookup_consistent_of_negative (s : BvHSkeleton) (n : String) (idx : Int)
    (h : s.joint_name_lookup_ n = some idx) (hneg : idx < 0) : ¬ lookup_consistent s := by
  intro hc
  have := (hc n idx h).1
  omega

/-- C10 (as stated, refuted): two mutator sequences from a fresh skeleton end
in an inconsistent state.  After `add_joint` of "Hips" and `set_joints` of the
empty list, "Hips" is still mapped to index 0 of an empty list.  After
2147483649 calls of `add_joint` alone, the name added is mapped to the index
-2147483648. -/
theorem lookup_consistent_counterexample :
    ¬ lookup_consistent (run_mutators BvHSkeleton.BvHSkeleton
        [.add_joint ⟨1, "Hips", 6⟩, .set_joints []]) ∧
    ¬ lookup_consistent (run_mutators BvHSkeleton.BvHSkeleton
        (List.replicate 2147483649 (Mutator.add_joint ⟨1, "x", 0⟩))) := by
  constructor
  · intro hc
    have h := (hc "Hips" 0 (by decide)).2.1
    exact absurd h (by decide)
  · exact not_lookup_consistent_of_negative _ "x" (-2147483648)
      ((run_replicate_add_joint_lookup 2147483649 ⟨1, "x", 0⟩ "x" rfl (by decide)).trans
        (by decide))
      (by decide)

/-- C10 (amended): the name lookup and the joints list are consistent in every
skeleton that is reached from a freshly constructed one by a sequence of
`add_joint`, `set_root_joint`, `set_num_frames` and `set_frame_time` calls and
holds at most two to the 31 joints: every name in the lookup maps to an index
that is in range of `joints()` and whose joint carries that name.
`set_root_joint`, `set_num_frames` and `set_frame_time` change neither the
lookup nor the list. -/
theorem lookup_consistent_without_set_joints (ms : List Mutator)
    (h1 : ∀ m ∈ ms, m.is_set_joints = false)
    (h2 : (run_mutators BvHSkeleton.BvHSkeleton ms).joints.length ≤ 2147483648) :
    lookup_consistent (run_mutators BvHSkeleton.BvHSkeleton ms) ∧
    (∀ (s : BvHSkeleton) (arg : Option Joint),
      (s.set_root_joint arg).joint_name_lookup_ = s.joint_name_lookup_ ∧
      (s.set_root_joint arg).joints = s.joints) ∧
    (∀ (s : BvHSkeleton) (arg : Nat),
      (s.set_num_frames arg).joint_name_lookup_ = s.joint_name_lookup_ ∧
      (s.set_num_frames arg).joints = s.joints) ∧
    (∀ (s : BvHSkeleton) (arg : Double),
      (s.set_frame_time arg).joint_name_lookup_ = s.joint_name_lookup_ ∧
      (s.set_frame_time arg).joints = s.joints) :=
  ⟨lookup_consistent_run _ ms lookup_consistent_fresh h1 h2,
    fun _ _ => ⟨rfl, rfl⟩, fun _ _ => ⟨rfl, rfl⟩, fun _ _ => ⟨rfl, rfl⟩⟩

/-- C10 (witness): six mutator calls, none of them `set_joints`, with a repeated
name. -/
theorem lookup_consistent_without_set_joints_witness :
    lookup_consistent (run_mutators BvHSkeleton.BvHSkeleton
      [.add_joint ⟨1, "Hips", 6⟩, .set_num_frames 1, .add_joint ⟨2, "Spine", 3⟩,
        .set_root_joint (some ⟨1, "Hips", 6⟩), .add_joint ⟨3, "Hips", 3⟩,
        .set_frame_time ⟨0⟩]) :=
  (lookup_consistent_without_set_joints
    [.add_joint ⟨1, "Hips", 6⟩, .set_num_frames 1, .add_joint ⟨2, "Spine", 3⟩,
      .set_root_joint (some ⟨1, "Hips", 6⟩), .add_joint ⟨3, "Hips", 3⟩,
      .set_frame_time ⟨0⟩] (by decide) (by decide)).1

/-- Last insertion wins, at the level of the lookup: the index kept for a name
is the position of the last joint added under it, converted to `int`. -/
theorem add_joints_lookup_last (s : BvHSkeleton) (pre post : List Joint) (j : Joint)
    (h : ∀ k ∈ post, j.name ≠ k.name) :
    (add_joints s (pre ++ j :: post)).joint_name_lookup_ j.name
      = some (to_int (s.joints_.length + pre.length)) := by
  rw [add_joints_append, add_joints_cons, add_joints_lookup_of_not_mem _ _ _ h,
    add_joint_lookup_self, add_joints_joints, List.length_append]

theorem add_joints_get_joint_last (pre post : List Joint) (j : Joint)
    (h : ∀ k ∈ post, j.name ≠ k.name) (hlen : pre.length < 2147483648) :
    (add_joints BvHSkeleton.BvHSkeleton (pre ++ j :: post)).joint_name_lookup_ j.name
      = some (pre.length : Int) ∧
    (add_joints BvHSkeleton.BvHSkeleton (pre ++ j :: post)).get_joint j.name = .ok j := by
  have hl := add_joints_lookup_last BvHSkeleton.BvHSkeleton pre post j h
  have h0 : (BvHSkeleton.BvHSkeleton).joints_.length + pre.length = pre.length := by
    simp [BvHSkeleton.BvHSkeleton]
  rw [h0, to_int_of_lt hlen] at hl
  refine ⟨hl, ?_⟩
  unfold BvHSkeleton.get_joint
  rw [hl]
  simp only [to_size_t_of_nat hlen]
  have hj : (add_joints BvHSkeleton.BvHSkeleton (pre ++ j :: post)).joints_[pre.length]?
      = some j := by
    rw [add_joints_joints]
    show ([] ++ (pre ++ j :: post))[pre.length]? = some j
    rw [List.nil_append, List.getElem?_append_right (Nat.le_refl _)]
    simp
  rw [hj]

/-- `add_joint` changes what `get_joint` returns for another name only when
the index kept for that name was not a position of the list. -/
theorem get_joint_add_joint_other (s : BvHSkeleton) (j : Joint) (n : String)
    (hn : n ≠ j.name) (hb : s.get_joint n ≠ .error .IndexOutOfBounds) :
    (s.add_joint j).get_joint n = s.get_joint n := by
  unfold BvHSkeleton.get_joint at hb ⊢
  rw [add_joint_lookup_other s j hn]
  cases hl : s.joint_name_lookup_ n with
  | none => rfl
  | some idx =>
    rw [hl] at hb
    cases hk : s.joints_[to_size_t idx]? with
    | none => simp [hk] at hb
    | some k =>
      have hlt : to_size_t idx < s.joints_.length := by
        by_contra hc
        rw [List.getElem?_eq_none (Nat.le_of_not_lt hc)] at hk
        exact absurd hk (by simp)
      simp only [add_joint_joints, List.getElem?_append_left hlt, hk]

theorem numbered_joint_name_injective :
    Function.Injective (fun k => (numbered_joint k).name) := by
  intro a b h
  have h1 : List.replicate a 'j' = List.replicate b 'j' := congrArg String.data h
  have h2 := congrArg List.length h1
  simpa using h2

theorem numbered_joints_nodup (n : Nat) : ((numbered_joints n).map Joint.name).Nodup := by
  unfold numbered_joints
  rw [List.map_map]
  exact (List.nodup_range n).map numbered_joint_name_injective

theorem numbered_joints_length (n : Nat) : (numbered_joints n).length = n := by
  simp [numbered_joints]

theorem numbered_joints_getElem? (m k : Nat) (h : k < m) :
    (numbered_joints m)[k]? = some (numbered_joint k) := by
  simp [numbered_joints, List.getElem?_range h]

/-- After the first `k + 1` joints of the numbered family, the index kept for
the name of joint `k` is `k` converted to `int`. -/
theorem numbered_joints_lookup (m k : Nat) (n : String) (hm : m = k + 1)
    (hn : n = (numbered_joint k).name) :
    (add_joints BvHSkeleton.BvHSkeleton (numbered_joints m)).joint_name_lookup_ n
      = some (to_int k) := by
  subst hm hn
  have h : numbered_joints (k + 1) = numbered_joints k ++ [numbered_joint k] := by
    simp [numbered_joints, List.range_succ]
  have hl := add_joints_lookup_last BvHSkeleton.BvHSkeleton (numbered_joints k) []
    (numbered_joint k) (fun _ hk => absurd hk (List.not_mem_nil _))
  rw [numbered_joints_length] at hl
  rw [h, hl]
  simp [BvHSkeleton.BvHSkeleton]

/-- C11 (as stated, refuted): two inputs.  On the skeleton built by
`add_joint` of "a" and "b" followed by `set_joints` of the list holding only
"a", `get_joint("b")` indexes past the end; after `add_joint` of "c", a
different name, it returns "c".  And the 2147483649 joints of the numbered
family have pairwise distinct names, yet after adding them to a fresh
skeleton the name of the joint at position 2147483648 is looked up at index
-2147483648. -/
theorem add_joint_stable_counterexample :
    (((add_joints BvHSkeleton.BvHSkeleton [⟨1, "a", 0⟩, ⟨2, "b", 0⟩]).set_joints
        [⟨1, "a", 0⟩]).get_joint "b" = .error .IndexOutOfBounds ∧
      (((add_joints BvHSkeleton.BvHSkeleton [⟨1, "a", 0⟩, ⟨2, "b", 0⟩]).set_joints
        [⟨1, "a", 0⟩]).add_joint ⟨3, "c", 0⟩).get_joint "b" = .ok ⟨3, "c", 0⟩) ∧
    (((numbered_joints 2147483649).map Joint.name).Nodup ∧
      (numbered_joints 2147483649)[2147483648]? = some (numbered_joint 2147483648) ∧
      (add_joints BvHSkeleton.BvHSkeleton (numbered_joints 2147483649)).joint_name_lookup_
        (numbered_joint 2147483648).name = some (-2147483648)) :=
  ⟨⟨by decide, by decide⟩,
   numbered_joints_nodup 2147483649,
   numbered_joints_getElem? 2147483649 2147483648 (by decide),
   (numbered_joints_lookup 2147483649 2147483648 (numbered_joint 2147483648).name rfl rfl).trans
     (by decide)⟩

/-- C11 (amended): stable index assignment.  For every skeleton, joint `j` and
index `i` below the old length of `joints()`, `add_joint(j)` leaves the joint
at index `i` unchanged; for every name `n` other than `j.name` it leaves
`have_joint(n)` unchanged, and it leaves the result of `get_joint(n)`
unchanged whenever `get_joint(n)` did not index outside the list before.
Hence adding at most two to the 31 joints with pairwise distinct names to a
fresh skeleton gives `joints()` equal to the list added, with the name of the
joint at position `k` looked up at index `k` and returned by `get_joint`. -/
theorem add_joint_stable (s : BvHSkeleton) (j : Joint) :
    (∀ i, i < s.joints.length → (s.add_joint j).joints[i]? = s.joints[i]?) ∧
    (∀ n, n ≠ j.name →
      (s.add_joint j).have_joint n = s.have_joint n ∧
      (s.get_joint n ≠ .error .IndexOutOfBounds →
        (s.add_joint j).get_joint n = s.get_joint n)) ∧
    (∀ js : List Joint, (js.map Joint.name).Nodup → js.length ≤ 2147483648 →
      (add_joints BvHSkeleton.BvHSkeleton js).joints = js ∧
      ∀ (k : Nat) (hk : k < js.length),
        (add_joints BvHSkeleton.BvHSkeleton js).joint_name_lookup_ (js[k]).name
          = some (k : Int) ∧
        (add_joints BvHSkeleton.BvHSkeleton js).get_joint (js[k]).name = .ok js[k]) := by
  refine ⟨?_, ?_, ?_⟩
  · intro i hi
    show (s.joints_ ++ [j])[i]? = s.joints_[i]?
    exact List.getElem?_append_left hi
  · intro n hn
    refine ⟨?_, get_joint_add_joint_other s j n hn⟩
    unfold BvHSkeleton.have_joint
    rw [add_joint_lookup_other s j hn]
  · intro js hnd hlen
    refine ⟨?_, ?_⟩
    · show (add_joints BvHSkeleton.BvHSkeleton js).joints_ = js
      rw [add_joints_joints]
      rfl
    · intro k hk
      have hsplit : js = js.take k ++ js[k] :: js.drop (k + 1) := by
        rw [← List.drop_eq_getElem_cons hk, List.take_append_drop]
      have hpre : (js.take k).length = k := by
        rw [List.length_take]
        omega
      have hnot : ∀ x ∈ js.drop (k + 1), (js[k]).name ≠ x.name := by
        intro x hx heq
        rw [hsplit, List.map_append, List.map_cons] at hnd
        have h1 := (List.nodup_cons.mp (List.nodup_append.mp hnd).2.1).1
        exact h1 (heq ▸ List.mem_map_of_mem Joint.name hx)
      have hres := add_joints_get_joint_last (js.take k) (js.drop (k + 1)) js[k] hnot
        (by omega)
      rw [← hsplit, hpre] at hres
      exact hres

/-- C11 (witness): three joints with distinct names added to a fresh skeleton;
"Spine" at position 1 is looked up at index 1. -/
theorem add_joint_stable_witness :
    (add_joints BvHSkeleton.BvHSkeleton
      [⟨1, "Hips", 6⟩, ⟨2, "Spine", 3⟩, ⟨3, "Head", 3⟩]).joint_name_lookup_ "Spine" = some 1 :=
  ((add_joint_stable BvHSkeleton.BvHSkeleton ⟨0, "", 0⟩).2.2
    [⟨1, "Hips", 6⟩, ⟨2, "Spine", 3⟩, ⟨3, "Head", 3⟩] (by decide) (by decide)).2 1
    (by decide) |>.1

/-- After `k + 1` calls `add_joint(x)` on a fresh skeleton, `k` between two to
the 31 and two to the 32, the name of `x` is registered with a negative index
and `get_joint` indexes outside the vector. -/
theorem add_joints_replicate_self_wrapped (m k : Nat) (x : Joint) (n : String)
    (hm : m = k + 1) (hn : n = x.name) (h1 : 2147483648 ≤ k) (h2 : k < 4294967296) :
    (add_joints BvHSkeleton.BvHSkeleton (List.replicate m x)).have_joint n = true ∧
    (add_joints BvHSkeleton.BvHSkeleton (List.replicate m x)).joint_name_lookup_ n
      = some ((k : Int) - 4294967296) ∧
    (add_joints BvHSkeleton.BvHSkeleton (List.replicate m x)).get_joint n
      = .error .IndexOutOfBounds := by
  subst hm hn
  have h : add_joints BvHSkeleton.BvHSkeleton (List.replicate (k + 1) x)
      = (add_joints BvHSkeleton.BvHSkeleton (List.replicate k x)).add_joint x := by
    rw [List.replicate_succ', add_joints_append]
    rfl
  have hk := add_joints_replicate_length k x
  have hw := get_joint_add_joint_wrapped
    (add_joints BvHSkeleton.BvHSkeleton (List.replicate k x)) x
    (by rw [hk]; exact h1) (by rw [hk]; exact h2)
  rw [hk] at hw
  rw [h]
  refine ⟨?_, hw.1, hw.2⟩
  unfold BvHSkeleton.have_joint
  rw [hw.1]
  rfl

/-- C15 (as stated, refuted): after 2147483649 calls `add_joint` of a joint
named "x" on a fresh skeleton, `have_joint("x")` is true, the index stored for
"x" is -2147483648, and `get_joint("x")` indexes outside the vector. -/
theorem add_joints_in_range_counterexample :
    (add_joints BvHSkeleton.BvHSkeleton
      (List.replicate 2147483649 ⟨1, "x", 0⟩)).have_joint "x" = true ∧
    (add_joints BvHSkeleton.BvHSkeleton
      (List.replicate 2147483649 ⟨1, "x", 0⟩)).joint_name_lookup_ "x" = some (-2147483648) ∧
    (add_joints BvHSkeleton.BvHSkeleton
      (List.replicate 2147483649 ⟨1, "x", 0⟩)).get_joint "x" = .error .IndexOutOfBounds :=
  ⟨(add_joints_replicate_self_wrapped 2147483649 2147483648 ⟨1, "x", 0⟩ "x" rfl rfl
      (by decide) (by decide)).1,
   (add_joints_replicate_self_wrapped 2147483649 2147483648 ⟨1, "x", 0⟩ "x" rfl rfl
      (by decide) (by decide)).2.1.trans (by decide),
   (add_joints_replicate_self_wrapped 2147483649 2147483648 ⟨1, "x", 0⟩ "x" rfl rfl
      (by decide) (by decide)).2.2⟩

/-- C15 (amended): in every skeleton obtained from a freshly constructed one
by at most two to the 31 `add_joint` calls, with any names, repeated or not,
for every name `n` with `have_joint(n)` true the index stored for `n` is
non-negative and less than the length of `joints()`, `get_joint(n)` does not
index out of bounds, and the joint it returns has name `n`. -/
theorem add_joints_in_range (js : List Joint) (n : String)
    (hlen : js.length ≤ 2147483648)
    (hn : (add_joints BvHSkeleton.BvHSkeleton js).have_joint n = true) :
    ∃ (idx : Int) (j : Joint),
      (add_joints BvHSkeleton.BvHSkeleton js).joint_name_lookup_ n = some idx ∧
      0 ≤ idx ∧ idx < ((add_joints BvHSkeleton.BvHSkeleton js).joints.length : Int) ∧
      (add_joints BvHSkeleton.BvHSkeleton js).get_joint n = .ok j ∧ j.name = n := by
  have hj : (add_joints BvHSkeleton.BvHSkeleton js).joints_ = js := by
    rw [add_joints_joints]
    rfl
  have hc : lookup_consistent (add_joints BvHSkeleton.BvHSkeleton js) := by
    rw [← run_mutators_add_joints]
    refine lookup_consistent_run _ _ lookup_consistent_fresh ?_ ?_
    · intro m hm
      obtain ⟨j, _, rfl⟩ := List.mem_map.mp hm
      rfl
    · rw [run_mutators_add_joints, hj]
      exact hlen
  unfold BvHSkeleton.have_joint at hn
  obtain ⟨idx, hidx⟩ := Option.isSome_iff_exists.mp hn
  obtain ⟨h0, h1, j, hget, hname⟩ := hc n idx hidx
  refine ⟨idx, j, hidx, h0, h1, ?_, hname⟩
  unfold BvHSkeleton.get_joint
  rw [hidx]
  simp only [hget]

/-- C15 (witness): three `add_joint` calls, two of them under the name
"Hips". -/
theorem add_joints_in_range_witness :
    ∃ (idx : Int) (j : Joint),
      (add_joints BvHSkeleton.BvHSkeleton
        [⟨1, "Hips", 6⟩, ⟨2, "Spine", 3⟩, ⟨3, "Hips", 3⟩]).joint_name_lookup_ "Hips"
          = some idx ∧
      0 ≤ idx ∧
      idx < ((add_joints BvHSkeleton.BvHSkeleton
        [⟨1, "Hips", 6⟩, ⟨2, "Spine", 3⟩, ⟨3, "Hips", 3⟩]).joints.length : Int) ∧
      (add_joints BvHSkeleton.BvHSkeleton
        [⟨1, "Hips", 6⟩, ⟨2, "Spine", 3⟩, ⟨3, "Hips", 3⟩]).get_joint "Hips" = .ok j ∧
      j.name = "Hips" :=
  add_joints_in_range [⟨1, "Hips", 6⟩, ⟨2, "Spine", 3⟩, ⟨3, "Hips", 3⟩] "Hips"
    (by decide) (by decide)

theorem add_joints_replicate_then_first (k : Nat) (x j : Joint) (n : String)
    (h : n = j.name) (h1 : 0 < k) (h2 : to_int k = 0) :
    (add_joints BvHSkeleton.BvHSkeleton (List.replicate k x ++ [j])).get_joint n = .ok x ∧
    (add_joints BvHSkeleton.BvHSkeleton (List.replicate k x ++ [j])).joints
      = List.replicate k x ++ [j] := by
  have hs : add_joints BvHSkeleton.BvHSkeleton (List.replicate k x ++ [j])
      = (add_joints BvHSkeleton.BvHSkeleton (List.replicate k x)).add_joint j := by
    rw [add_joints_append]
    rfl
  refine ⟨?_, ?_⟩
  · rw [hs]
    exact add_joints_replicate_get_joint_first k x j n h h1 h2
  · show (add_joints BvHSkeleton.BvHSkeleton (List.replicate k x ++ [j])).joints_ = _
    rw [add_joints_joints]
    rfl

/-- C16 (as stated, refuted): after 4294967296 calls `add_joint` of a joint
named "x" and one call for the joint "b", `joints()` holds all joints added
and `get_joint("b")` returns the first joint "x", not the joint "b" of the
only call made under that name. -/
theorem last_insertion_counterexample :
    ((add_joints BvHSkeleton.BvHSkeleton
        (List.replicate 4294967296 ⟨1, "x", 0⟩ ++ [⟨2, "b", 0⟩])).get_joint "b"
        = .ok ⟨1, "x", 0⟩ ∧
      (add_joints BvHSkeleton.BvHSkeleton
        (List.replicate 4294967296 ⟨1, "x", 0⟩ ++ [⟨2, "b", 0⟩])).joints
        = List.replicate 4294967296 ⟨1, "x", 0⟩ ++ [⟨2, "b", 0⟩]) ∧
    (Except.ok ⟨1, "x", 0⟩ : Except BvhError Joint) ≠ .ok ⟨2, "b", 0⟩ :=
  ⟨add_joints_replicate_then_first 4294967296 ⟨1, "x", 0⟩ ⟨2, "b", 0⟩ "b" rfl
      (by decide) (by decide),
   by decide⟩

/-- Every name occurring in a sequence of joints has a most recent joint: the
sequence splits around a joint of that name that no later joint shares. -/
theorem exists_last_of_name (js : List Joint) (n : String) (h : n ∈ js.map Joint.name) :
    ∃ (pre : List Joint) (j : Joint) (post : List Joint),
      js = pre ++ j :: post ∧ j.name = n ∧ ∀ k ∈ post, j.name ≠ k.name := by
  induction js with
  | nil => simp at h
  | cons a rest ih =>
    by_cases hr : n ∈ rest.map Joint.name
    · obtain ⟨pre, j, post, hsplit, hname, hlast⟩ := ih hr
      exact ⟨a :: pre, j, post, by rw [hsplit]; rfl, hname, hlast⟩
    · have ha : a.name = n := by
        rw [List.map_cons, List.mem_cons] at h
        rcases h with h | h
        · exact h.symm
        · exact absurd h hr
      refine ⟨[], a, rest, rfl, ha, ?_⟩
      intro k hk heq
      exact hr (ha ▸ heq ▸ List.mem_map_of_mem Joint.name hk)

/-- C16 (amended): last insertion wins.  For every sequence of `add_joint`
calls on a fresh skeleton, `joints()` holds every added joint, one entry per
call, in call order; and for every name occurring in the sequence whose most
recent call is among the first two to the 31 calls (every name when at most
two to the 31 joints are added), `get_joint` returns the joint passed to that
most recent call. -/
theorem last_insertion_wins (js : List Joint) :
    (add_joints BvHSkeleton.BvHSkeleton js).joints = js ∧
    (∀ (pre : List Joint) (j : Joint) (post : List Joint),
      js = pre ++ j :: post → (∀ k ∈ post, j.name ≠ k.name) → pre.length < 2147483648 →
      (add_joints BvHSkeleton.BvHSkeleton js).get_joint j.name = .ok j) ∧
    (∀ n ∈ js.map Joint.name,
      ∃ (pre : List Joint) (j : Joint) (post : List Joint),
        js = pre ++ j :: post ∧ j.name = n ∧ (∀ k ∈ post, j.name ≠ k.name) ∧
        (pre.length < 2147483648 →
          (add_joints BvHSkeleton.BvHSkeleton js).get_joint n = .ok j)) ∧
    (js.length ≤ 2147483648 →
      ∀ n ∈ js.map Joint.name,
        ∃ (pre : List Joint) (j : Joint) (post : List Joint),
          js = pre ++ j :: post ∧ j.name = n ∧ (∀ k ∈ post, j.name ≠ k.name) ∧
          (add_joints BvHSkeleton.BvHSkeleton js).get_joint n = .ok j) := by
  have hget : ∀ (pre : List Joint) (j : Joint) (post : List Joint),
      js = pre ++ j :: post → (∀ k ∈ post, j.name ≠ k.name) → pre.length < 2147483648 →
      (add_joints BvHSkeleton.BvHSkeleton js).get_joint j.name = .ok j := by
    intro pre j post hsplit hlast hlen
    rw [hsplit]
    exact (add_joints_get_joint_last pre post j hlast hlen).2
  refine ⟨?_, hget, ?_, ?_⟩
  · show (add_joints BvHSkeleton.BvHSkeleton js).joints_ = js
    rw [add_joints_joints]
    rfl
  · intro n hn
    obtain ⟨pre, j, post, hsplit, hname, hlast⟩ := exists_last_of_name js n hn
    exact ⟨pre, j, post, hsplit, hname, hlast, fun hlen => hname ▸ hget pre j post hsplit hlast hlen⟩
  · intro hlen n hn
    obtain ⟨pre, j, post, hsplit, hname, hlast⟩ := exists_last_of_name js n hn
    have hpre : pre.length < 2147483648 := by
      have := congrArg List.length hsplit
      simp at this
      omega
    exact ⟨pre, j, post, hsplit, hname, hlast, hname ▸ hget pre j post hsplit hlast hpre⟩

/-- C16 (witness): "Hips" is added twice, with "Spine" in between and "Head"
after; `get_joint("Hips")` returns the second "Hips". -/
theorem last_insertion_wins_witness :
    (add_joints BvHSkeleton.BvHSkeleton
      [⟨1, "Hips", 6⟩, ⟨2, "Spine", 3⟩, ⟨3, "Hips", 3⟩, ⟨4, "Head", 3⟩]).get_joint "Hips"
      = .ok ⟨3, "Hips", 3⟩ :=
  (last_insertion_wins [⟨1, "Hips", 6⟩, ⟨2, "Spine", 3⟩, ⟨3, "Hips", 3⟩, ⟨4, "Head", 3⟩]).2.1
    [⟨1, "Hips", 6⟩, ⟨2, "Spine", 3⟩] ⟨3, "Hips", 3⟩ [⟨4, "Head", 3⟩] rfl
    (by decide) (by decide)

/-- C12: each bulk setter stores its argument, whatever it is, and changes no
other field.  After `set_num_frames(n)`, `n` an `unsigned`, `num_frames()` is
`n`; after `set_frame_time(t)`, `frame_time()` is `t`; after
`set_root_joint(r)`, `root_joint()` is `r`, in `joints()` or not; after
`set_joints(l)`, `joints()` is `l`; the name lookup, `num_channels()` and the
remaining fields are those of before. -/
theorem setters_change_own_field (s : BvHSkeleton) (n : Nat) (t : Double)
    (r : Option Joint) (l : List Joint) (hn : n < 4294967296) :
    ((s.set_num_frames n).num_frames = n ∧
      (s.set_num_frames n).root_joint = s.root_joint ∧
      (s.set_num_frames n).joints = s.joints ∧
      (s.set_num_frames n).joint_name_lookup_ = s.joint_name_lookup_ ∧
      (s.set_num_frames n).frame_time = s.frame_time ∧
      (s.set_num_frames n).num_channels = s.num_channels) ∧
    ((s.set_frame_time t).frame_time = t ∧
      (s.set_frame_time t).root_joint = s.root_joint ∧
      (s.set_frame_time t).joints = s.joints ∧
      (s.set_frame_time t).joint_name_lookup_ = s.joint_name_lookup_ ∧
      (s.set_frame_time t).num_frames = s.num_frames ∧
      (s.set_frame_time t).num_channels = s.num_channels) ∧
    ((s.set_root_joint r).root_joint = r ∧
      (s.set_root_joint r).joints = s.joints ∧
      (s.set_root_joint r).joint_name_lookup_ = s.joint_name_lookup_ ∧
      (s.set_root_joint r).num_frames = s.num_frames ∧
      (s.set_root_joint r).frame_time = s.frame_time ∧
      (s.set_root_joint r).num_channels = s.num_channels) ∧
    ((s.set_joints l).joints = l ∧
      (s.set_joints l).root_joint = s.root_joint ∧
      (s.set_joints l).joint_name_lookup_ = s.joint_name_lookup_ ∧
      (s.set_joints l).num_frames = s.num_frames ∧
      (s.set_joints l).frame_time = s.frame_time ∧
      (s.set_joints l).num_channels = s.num_channels) := by
  refine ⟨⟨?_, rfl, rfl, rfl, rfl, rfl⟩, ⟨rfl, rfl, rfl, rfl, rfl, rfl⟩,
    ⟨rfl, rfl, rfl, rfl, rfl, rfl⟩, ⟨rfl, rfl, rfl, rfl, rfl, rfl⟩⟩
  show n % 4294967296 = n
  exact Nat.mod_eq_of_lt hn

/-- C12 (witness): the setters on the skeleton holding "Hips"; the root joint
set is "Spine", which is not in `joints()`. -/
theorem setters_change_own_field_witness :
    ((BvHSkeleton.BvHSkeleton.add_joint ⟨1, "Hips", 6⟩).set_num_frames 3).num_frames = 3 ∧
    ((BvHSkeleton.BvHSkeleton.add_joint ⟨1, "Hips", 6⟩).set_root_joint
      (some ⟨2, "Spine", 3⟩)).root_joint = some ⟨2, "Spine", 3⟩ ∧
    (⟨2, "Spine", 3⟩ : Joint) ∉ (BvHSkeleton.BvHSkeleton.add_joint ⟨1, "Hips", 6⟩).joints :=
  ⟨(setters_change_own_field (BvHSkeleton.BvHSkeleton.add_joint ⟨1, "Hips", 6⟩) 3 ⟨0⟩
      (some ⟨2, "Spine", 3⟩) [] (by decide)).1.1,
   (setters_change_own_field (BvHSkeleton.BvHSkeleton.add_joint ⟨1, "Hips", 6⟩) 3 ⟨0⟩
      (some ⟨2, "Spine", 3⟩) [] (by decide)).2.2.1.1,
   by decide⟩

/-- C13: `add_joint` leaves `root_joint()`, `num_frames()` and `frame_time()`
as they were; the fields it writes are `joints_`, the name lookup and
`num_channels_`. -/
theorem add_joint_frame (s : BvHSkeleton) (j : Joint) :
    (s.add_joint j).root_joint = s.root_joint ∧
    (s.add_joint j).num_frames = s.num_frames ∧
    (s.add_joint j).frame_time = s.frame_time ∧
    s.add_joint j =
      { s with
        joints_ := (s.add_joint j).joints_
        joint_name_lookup_ := (s.add_joint j).joint_name_lookup_
        num_channels_ := (s.add_joint j).num_channels_ } :=
  ⟨rfl, rfl, rfl, rfl⟩

/-- C14: a freshly constructed skeleton has `num_frames()`, `frame_time()` and
`num_channels()` zero, an empty `joints()` list, no root joint, and
`have_joint(n)` false for every name `n`. -/
theorem fresh_skeleton (n : String) :
    BvHSkeleton.BvHSkeleton.num_frames = 0 ∧
    BvHSkeleton.BvHSkeleton.frame_time = ⟨0⟩ ∧
    BvHSkeleton.BvHSkeleton.num_channels = 0 ∧
    BvHSkeleton.BvHSkeleton.joints = [] ∧
    BvHSkeleton.BvHSkeleton.root_joint = none ∧
    BvHSkeleton.BvHSkeleton.have_joint n = false :=
  ⟨rfl, rfl, rfl, rfl, rfl, rfl⟩

/-- C17: stale lookup after `set_joints`.  On the skeleton built by
`add_joint` of "Hips", the name "Hips" stays registered after `set_joints`;
with the empty list `get_joint("Hips")` indexes past the end of `joints()`,
with the list holding only "Spine" it returns "Spine".  In general
`set_joints` keeps the name lookup and `num_channels()` of before. -/
theorem set_joints_stale_lookup :
    (∃ (j : Joint) (l : List Joint) (n : String),
      ((BvHSkeleton.BvHSkeleton.add_joint j).set_joints l).have_joint n = true ∧
      ((BvHSkeleton.BvHSkeleton.add_joint j).set_joints l).get_joint n
        = .error .IndexOutOfBounds) ∧
    (∃ (j : Joint) (l : List Joint) (n : String) (k : Joint),
      ((BvHSkeleton.BvHSkeleton.add_joint j).set_joints l).have_joint n = true ∧
      ((BvHSkeleton.BvHSkeleton.add_joint j).set_joints l).get_joint n = .ok k ∧
      k.name ≠ n) ∧
    (∀ (s : BvHSkeleton) (l : List Joint),
      (s.set_joints l).joints = l ∧
      (s.set_joints l).joint_name_lookup_ = s.joint_name_lookup_ ∧
      (s.set_joints l).num_channels = s.num_channels) :=
  ⟨⟨⟨1, "Hips", 6⟩, [], "Hips", by decide, by decide⟩,
   ⟨⟨1, "Hips", 6⟩, [⟨2, "Spine", 3⟩], "Hips", ⟨2, "Spine", 3⟩, by decide, by decide, by decide⟩,
   fun _ _ => ⟨rfl, rfl, rfl⟩⟩

/-!
Properties of the recalculation.
-/

section recalculation_properties

variable {M : Type} [Mul M]

mutual
/-- With motion data for every frame below `n` in every joint, the pass from a
joint returns a tree for every frame below `n`. -/
theorem recalculate_from_ok (frame n : Nat) (hf : frame < n) :
    ∀ (node : JointNode M) (pg : Option M), node.motion_complete n = true →
      ∃ node1, recalculate_from frame pg node = .ok node1
  | .mk j m l g c, pg, h => by
    simp only [JointNode.motion_complete, Bool.and_eq_true, decide_eq_true_eq] at h
    obtain ⟨loc, hloc⟩ : ∃ loc, m[frame]? = some loc :=
      ⟨m[frame], List.getElem?_eq_getElem (by omega)⟩
    obtain ⟨c1, hc1⟩ := recalculate_children_ok frame n hf c (global_from pg loc) h.2
    refine ⟨.mk j m (fun f => if f = frame then some loc else l f)
      (fun f => if f = frame then some (global_from pg loc) else g f) c1, ?_⟩
    simp only [recalculate_from, hloc, hc1]
/-- The same for the recursion into a child list. -/
theorem recalculate_children_ok (frame n : Nat) (hf : frame < n) :
    ∀ (cs : List (JointNode M)) (glob : M), JointNode.motion_complete_list n cs = true →
      ∃ cs1, recalculate_children frame glob cs = .ok cs1
  | [], _, _ => ⟨[], by simp only [recalculate_children]⟩
  | c :: cs, glob, h => by
    simp only [JointNode.motion_complete_list, Bool.and_eq_true] at h
    obtain ⟨c1, hc1⟩ := recalculate_from_ok frame n hf c (some glob) h.1
    obtain ⟨cs1, hcs1⟩ := recalculate_children_ok frame n hf cs glob h.2
    exact ⟨c1 :: cs1, by simp only [recalculate_children, hc1, hcs1]⟩
end

mutual
/-- What a successful pass from a joint leaves behind: the joint's slots for
the frame hold its local transform and the global transform derived from the
parent's, the handles of the tree are those of the input, and the composition
law holds between every joint of the tree and each of its children. -/
theorem recalculate_from_spec (frame : Nat) :
    ∀ (node : JointNode M) (pg : Option M) (node1 : JointNode M),
      recalculate_from frame pg node = .ok node1 →
      ∃ loc, node.motion[frame]? = some loc ∧
        node1.local_transform frame = some loc ∧
        node1.global_transform frame = some (global_from pg loc) ∧
        (∀ P ∈ node1.nodes, ∀ J ∈ P.children, composition_law frame P J) ∧
        node1.nodes.map JointNode.joint = node.nodes.map JointNode.joint
  | .mk j m l g c, pg, node1, h => by
    simp only [recalculate_from] at h
    split at h
    · exact absurd h (by simp)
    · rename_i loc hloc
      split at h
      · exact absurd h (by simp)
      · rename_i c1 hc1
        obtain ⟨hkids, hbelow, hnames⟩ :=
          recalculate_children_spec frame c (global_from pg loc) c1 hc1
        have h1 := (Except.ok.inj h).symm
        subst h1
        refine ⟨loc, hloc, by simp [JointNode.local_transform],
          by simp [JointNode.global_transform], ?_, ?_⟩
        · intro P hP J hJ
          simp only [JointNode.nodes, List.mem_cons] at hP
          rcases hP with hP | hP
          · subst hP
            obtain ⟨cl, h2, h3⟩ := hkids J hJ
            exact ⟨global_from pg loc, cl, by simp [JointNode.global_transform], h2, h3⟩
          · exact hbelow P hP J hJ
        · simp only [JointNode.nodes, List.map_cons, hnames, JointNode.joint]
/-- The same for the recursion into a child list: every child's global
transform is `glob` composed with its local transform. -/
theorem recalculate_children_spec (frame : Nat) :
    ∀ (cs : List (JointNode M)) (glob : M) (cs1 : List (JointNode M)),
      recalculate_children frame glob cs = .ok cs1 →
      (∀ J ∈ cs1, ∃ cl, J.local_transform frame = some cl ∧
        J.global_transform frame = some (glob * cl)) ∧
      (∀ P ∈ JointNode.nodes_list cs1, ∀ J ∈ P.children, composition_law frame P J) ∧
      (JointNode.nodes_list cs1).map JointNode.joint
        = (JointNode.nodes_list cs).map JointNode.joint
  | [], glob, cs1, h => by
    simp only [recalculate_children] at h
    have h1 := (Except.ok.inj h).symm
    subst h1
    simp [JointNode.nodes_list]
  | c :: cs, glob, cs1, h => by
    simp only [recalculate_children] at h
    split at h
    · exact absurd h (by simp)
    · rename_i c1 hc1
      split at h
      · exact absurd h (by simp)
      · rename_i cs2 hcs2
        obtain ⟨loc, _, hl, hg, hlaw, hnames⟩ := recalculate_from_spec frame c (some glob) c1 hc1
        obtain ⟨hkids, hbelow, hnames2⟩ := recalculate_children_spec frame cs glob cs2 hcs2
        have h1 := (Except.ok.inj h).symm
        subst h1
        refine ⟨?_, ?_, ?_⟩
        · intro J hJ
          simp only [List.mem_cons] at hJ
          rcases hJ with hJ | hJ
          · subst hJ
            exact ⟨loc, hl, hg⟩
          · exact hkids J hJ
        · intro P hP J hJ
          simp only [JointNode.nodes_list, List.mem_append] at hP
          rcases hP with hP | hP
          · exact hlaw P hP J hJ
          · exact hbelow P hP J hJ
        · simp only [JointNode.nodes_list, List.map_append, hnames, hnames2]
end

/-- C6: in a skeleton tree whose joints all carry motion data for
`num_frames()` frames, for every frame below `num_frames()` the recalculation
from the root (given explicitly or by the default start joint) returns the
tree, with the handles it had, in which every joint
`J` with parent `P` has `J.global_transform[F]` equal to
`P.global_transform[F]` composed with `J.local_transform[F]`, parent first. -/
theorem recalculate_composition_law (s : BvHSkeleton) (root : JointNode M) (frame : Nat)
    (current_joint : Option (List Nat))
    (hc : current_joint = none ∨ current_joint = some [])
    (hf : frame < s.num_frames) (hm : root.motion_complete s.num_frames = true) :
    ∃ root1, s.recalculate_joint_transforms root frame current_joint = .ok root1 ∧
      root1.nodes.map JointNode.joint = root.nodes.map JointNode.joint ∧
      ∀ P ∈ root1.nodes, ∀ J ∈ P.children, composition_law frame P J := by
  obtain ⟨root1, h1⟩ := recalculate_from_ok frame s.num_frames hf root none hm
  obtain ⟨_, _, _, _, hlaw, hnames⟩ := recalculate_from_spec frame root none root1 h1
  have hn : ¬ s.num_frames_ ≤ frame := Nat.not_le.mpr hf
  refine ⟨root1, ?_, hnames, hlaw⟩
  rcases hc with hc | hc <;> subst hc <;>
    simp [BvHSkeleton.recalculate_joint_transforms, recalculate_at, hn, h1]

/-- C6 (witness): the two-joint tree at frame 0 of 1. -/
theorem recalculate_composition_law_witness :
    ∃ root1, (BvHSkeleton.BvHSkeleton.set_num_frames 1).recalculate_joint_transforms
        hips_spine 0 none = .ok root1 ∧
      root1.nodes.map JointNode.joint = hips_spine.nodes.map JointNode.joint ∧
      ∀ P ∈ root1.nodes, ∀ J ∈ P.children, composition_law 0 P J :=
  recalculate_composition_law (BvHSkeleton.BvHSkeleton.set_num_frames 1) hips_spine 0 none
    (Or.inl rfl) (by decide) (by decide)

/-- C7: for every skeleton, every tree of joints, every start joint and every
frame index that is not below `num_frames()`, the recalculation fails with
`OutOfRange`. -/
theorem recalculate_out_of_range (s : BvHSkeleton) (root : JointNode M) (frame : Nat)
    (current_joint : Option (List Nat)) (h : s.num_frames ≤ frame) :
    s.recalculate_joint_transforms root frame current_joint = .error .OutOfRange := by
  have hn : s.num_frames_ ≤ frame := h
  simp [BvHSkeleton.recalculate_joint_transforms, hn]

/-- C7 (witness): frame 5 on a skeleton with 3 frames. -/
theorem recalculate_out_of_range_witness :
    (BvHSkeleton.BvHSkeleton.set_num_frames 3).num_frames = 3 ∧
    (BvHSkeleton.BvHSkeleton.set_num_frames 3).recalculate_joint_transforms hips_spine 5 none
      = .error .OutOfRange :=
  ⟨by decide,
   recalculate_out_of_range (BvHSkeleton.BvHSkeleton.set_num_frames 3) hips_spine 5 none
    (by decide)⟩

mutual
/-- With motion data for the frame in every joint, the pass from a joint
returns a tree. -/
theorem recalculate_from_ok_of_covers (frame : Nat) :
    ∀ (node : JointNode M) (pg : Option M), node.motion_covers frame = true →
      ∃ node1, recalculate_from frame pg node = .ok node1
  | .mk j m l g c, pg, h => by
    simp only [JointNode.motion_covers, Bool.and_eq_true, decide_eq_true_eq] at h
    obtain ⟨loc, hloc⟩ : ∃ loc, m[frame]? = some loc :=
      ⟨m[frame], List.getElem?_eq_getElem h.1⟩
    obtain ⟨c1, hc1⟩ := recalculate_children_ok_of_covers frame c (global_from pg loc) h.2
    refine ⟨.mk j m (fun f => if f = frame then some loc else l f)
      (fun f => if f = frame then some (global_from pg loc) else g f) c1, ?_⟩
    simp only [recalculate_from, hloc, hc1]
/-- The same for the recursion into a child list. -/
theorem recalculate_children_ok_of_covers (frame : Nat) :
    ∀ (cs : List (JointNode M)) (glob : M), JointNode.motion_covers_list frame cs = true →
      ∃ cs1, recalculate_children frame glob cs = .ok cs1
  | [], _, _ => ⟨[], by simp only [recalculate_children]⟩
  | c :: cs, glob, h => by
    simp only [JointNode.motion_covers_list, Bool.and_eq_true] at h
    obtain ⟨c1, hc1⟩ := recalculate_from_ok_of_covers frame c (some glob) h.1
    obtain ⟨cs1, hcs1⟩ := recalculate_children_ok_of_covers frame cs glob h.2
    exact ⟨c1 :: cs1, by simp only [recalculate_children, hc1, hcs1]⟩
end

mutual
/-- A pass from a joint that does not return fails with `OutOfRange`, and some
joint of the tree has no motion data for the frame. -/
theorem recalculate_from_error (frame : Nat) :
    ∀ (node : JointNode M) (pg : Option M) (e : BvhError),
      recalculate_from frame pg node = .error e →
      e = .OutOfRange ∧ node.motion_covers frame = false
  | .mk j m l g c, pg, e, h => by
    simp only [recalculate_from] at h
    split at h
    · rename_i hnone
      have hlen : ¬ frame < m.length := by
        intro hlt
        rw [List.getElem?_eq_getElem hlt] at hnone
        exact absurd hnone (by simp)
      refine ⟨(Except.error.inj h).symm, ?_⟩
      simp [JointNode.motion_covers, hlen]
    · rename_i loc hloc
      split at h
      · rename_i e1 he1
        obtain ⟨h1, h2⟩ := recalculate_children_error frame c (global_from pg loc) e1 he1
        refine ⟨(Except.error.inj h) ▸ h1, ?_⟩
        simp [JointNode.motion_covers, h2]
      · exact absurd h (by simp)
/-- The same for the recursion into a child list. -/
theorem recalculate_children_error (frame : Nat) :
    ∀ (cs : List (JointNode M)) (glob : M) (e : BvhError),
      recalculate_children frame glob cs = .error e →
      e = .OutOfRange ∧ JointNode.motion_covers_list frame cs = false
  | [], glob, e, h => by
    simp only [recalculate_children] at h
    exact absurd h (by simp)
  | c :: cs, glob, e, h => by
    simp only [recalculate_children] at h
    split at h
    · rename_i e1 he1
      obtain ⟨h1, h2⟩ := recalculate_from_error frame c (some glob) e1 he1
      refine ⟨(Except.error.inj h) ▸ h1, ?_⟩
      simp [JointNode.motion_covers_list, h2]
    · split at h
      · rename_i e1 he1
        obtain ⟨h1, h2⟩ := recalculate_children_error frame cs glob e1 he1
        refine ⟨(Except.error.inj h) ▸ h1, ?_⟩
        simp [JointNode.motion_covers_list, h2]
      · exact absurd h (by simp)
end

mutual
/-- A pass from a joint returns only when every joint of the tree has motion
data for the frame. -/
theorem recalculate_from_covers (frame : Nat) :
    ∀ (node : JointNode M) (pg : Option M) (node1 : JointNode M),
      recalculate_from frame pg node = .ok node1 → node.motion_covers frame = true
  | .mk j m l g c, pg, node1, h => by
    simp only [recalculate_from] at h
    split at h
    · exact absurd h (by simp)
    · rename_i loc hloc
      split at h
      · exact absurd h (by simp)
      · rename_i c1 hc1
        have hlen : frame < m.length := by
          by_contra hlt
          rw [List.getElem?_eq_none (Nat.le_of_not_lt hlt)] at hloc
          exact absurd hloc (by simp)
        have hkids := recalculate_children_covers frame c (global_from pg loc) c1 hc1
        simp [JointNode.motion_covers, hlen, hkids]
/-- The same for the recursion into a child list. -/
theorem recalculate_children_covers (frame : Nat) :
    ∀ (cs : List (JointNode M)) (glob : M) (cs1 : List (JointNode M)),
      recalculate_children frame glob cs = .ok cs1 →
      JointNode.motion_covers_list frame cs = true
  | [], _, _, _ => by simp [JointNode.motion_covers_list]
  | c :: cs, glob, cs1, h => by
    simp only [recalculate_children] at h
    split at h
    · exact absurd h (by simp)
    · rename_i c1 hc1
      split at h
      · exact absurd h (by simp)
      · rename_i cs2 hcs2
        have h1 := recalculate_from_covers frame c (some glob) c1 hc1
        have h2 := recalculate_children_covers frame cs glob cs2 hcs2
        simp [JointNode.motion_covers_list, h1, h2]
end

mutual
/-- Motion data for `n` frames in every joint covers every frame below `n`. -/
theorem motion_covers_of_complete (frame n : Nat) (hf : frame < n) :
    ∀ (node : JointNode M), node.motion_complete n = true → node.motion_covers frame = true
  | .mk j m l g c, h => by
    simp only [JointNode.motion_complete, Bool.and_eq_true, decide_eq_true_eq] at h
    have h2 := motion_covers_list_of_complete frame n hf c h.2
    have h1 : frame < m.length := by omega
    simp [JointNode.motion_covers, h1, h2]
/-- The same for a list of subtrees. -/
theorem motion_covers_list_of_complete (frame n : Nat) (hf : frame < n) :
    ∀ (cs : List (JointNode M)), JointNode.motion_complete_list n cs = true →
      JointNode.motion_covers_list frame cs = true
  | [], _ => by simp [JointNode.motion_covers_list]
  | c :: cs, h => by
    simp only [JointNode.motion_complete_list, Bool.and_eq_true] at h
    have h1 := motion_covers_of_complete frame n hf c h.1
    have h2 := motion_covers_list_of_complete frame n hf cs h.2
    simp [JointNode.motion_covers_list, h1, h2]
end

/-- C8: for every frame below `num_frames()` and every tree of joints, a
recalculation started at the root, given explicitly or by the default start
joint, that returns leaves the root with `global_transform[F]` equal to
`local_transform[F]`, the local transform computed from the root's motion
data.  It returns exactly when every joint has motion data for the frame (in
particular when all joints carry motion data for `num_frames()` frames), and
fails with `OutOfRange` otherwise. -/
theorem recalculate_root_global (s : BvHSkeleton) (root : JointNode M) (frame : Nat)
    (current_joint : Option (List Nat))
    (hc : current_joint = none ∨ current_joint = some [])
    (hf : frame < s.num_frames) :
    (∀ root1, s.recalculate_joint_transforms root frame current_joint = .ok root1 →
      ∃ loc, root.local_transform_for frame = .ok loc ∧
        root1.local_transform frame = some loc ∧
        root1.global_transform frame = some loc) ∧
    ((∃ root1, s.recalculate_joint_transforms root frame current_joint = .ok root1) ↔
      root.motion_covers frame = true) ∧
    (root.motion_complete s.num_frames = true →
      ∃ root1, s.recalculate_joint_transforms root frame current_joint = .ok root1) ∧
    (root.motion_covers frame = false →
      s.recalculate_joint_transforms root frame current_joint = .error .OutOfRange) := by
  have hn : ¬ s.num_frames_ ≤ frame := Nat.not_le.mpr hf
  have hrun : s.recalculate_joint_transforms root frame current_joint
      = recalculate_from frame none root := by
    rcases hc with hc | hc <;> subst hc <;>
      simp [BvHSkeleton.recalculate_joint_transforms, recalculate_at, hn]
  rw [hrun]
  refine ⟨?_, ⟨?_, recalculate_from_ok_of_covers frame root none⟩, ?_, ?_⟩
  · intro root1 h1
    obtain ⟨loc, hmo, hl, hg, _, _⟩ := recalculate_from_spec frame root none root1 h1
    exact ⟨loc, by simp [JointNode.local_transform_for, hmo], hl, hg⟩
  · rintro ⟨root1, h1⟩
    exact recalculate_from_covers frame root none root1 h1
  · intro hm
    exact recalculate_from_ok_of_covers frame root none
      (motion_covers_of_complete frame s.num_frames hf root hm)
  · intro hcov
    cases hres : recalculate_from frame none root with
    | ok r =>
      have := recalculate_from_covers frame root none r hres
      rw [hcov] at this
      exact absurd this (by simp)
    | error e => rw [(recalculate_from_error frame root none e hres).1]

/-- C8 (witness): the two-joint tree at frame 0 on a skeleton of 3 frames, the
root given explicitly; the joints carry motion data for frame 0 only. -/
theorem recalculate_root_global_witness :
    (∃ root1, (BvHSkeleton.BvHSkeleton.set_num_frames 3).recalculate_joint_transforms
        hips_spine 0 (some []) = .ok root1) ∧
    (∀ root1, (BvHSkeleton.BvHSkeleton.set_num_frames 3).recalculate_joint_transforms
        hips_spine 0 (some []) = .ok root1 →
      ∃ loc, hips_spine.local_transform_for 0 = .ok loc ∧
        root1.local_transform 0 = some loc ∧
        root1.global_transform 0 = some loc) :=
  ⟨(recalculate_root_global (BvHSkeleton.BvHSkeleton.set_num_frames 3) hips_spine 0 (some [])
      (Or.inr rfl) (by decide)).2.1.mpr (by decide),
   (recalculate_root_global (BvHSkeleton.BvHSkeleton.set_num_frames 3) hips_spine 0 (some [])
      (Or.inr rfl) (by decide)).1⟩

end recalculation_properties

end bvh
